import Mathlib

/-!
Shallow embedding of the DynamoDB client utilities of the
serverless-boilerplate-template repository
(`src/clients-and-utilities/ts/ddb.ts` and its CommonJS twin
`src/clients-and-utilities/js/ddb.js`), and proofs about the
`batchWriteItem` batch partitioner/dispatcher and the
`convertErrorObject` error formatter.

Modelling notes.

* Items are kept abstract (`α`): the source stores arbitrary
  `{ [key: string]: unknown }` records and never inspects them.
* `splitEvery` is ramda's `splitEvery`, given here with explicit fuel so
  that it is structurally recursive and kernel-reducible; callers pass
  fuel `l.length`, which suffices for every positive chunk size (for a
  non-positive first argument ramda throws, a case never reached here
  because `batchWriteItem` always passes 25).
* The dispatch loop (`processedItemBatches.map(async (batch, i) => ...)`
  joined by `Promise.all`) is embedded as a run over a network oracle
  `send : Nat → Except ErrVal ρ` giving each batch index its outcome.
  The run records the commands sent, the `console.log` records, and the
  overall outcome.  Real completion order of the concurrent requests is
  unspecified; the embedding fixes batch-index order for the success
  logs, which no theorem below depends on.
-/

namespace DdbUtils

variable {α β ρ : Type}

/-- A single write operation, as built by `batchWriteItem`
(ddb.ts lines 195-207): `{ PutRequest: { Item: item } }` or
`{ DeleteRequest: { Key: item } }`. -/
inductive WriteRequest (α : Type) where
  | putRequest (item : α)
  | deleteRequest (key : α)
deriving DecidableEq, Repr

/-- The mapping phase of `batchWriteItem` (ddb.ts lines 193-207).
The source tests `action === "put"`; any other action string falls into
the `else` branch and yields `DeleteRequest` shapes. -/
def processItems (action : String) (items : List α) : List (WriteRequest α) :=
  if action = "put" then
    items.map (fun item => WriteRequest.putRequest item)
  else
    items.map (fun item => WriteRequest.deleteRequest item)

/-- Ramda's `splitEvery n`, with explicit fuel: as long as the list is
non-empty, peel off `take n` and recurse on `drop n`.  With `0 < n` and
fuel at least `l.length` the fuel never runs out (see
`splitEveryFuel_congr`); the out-of-fuel branch is therefore
unreachable in this development. -/
def splitEveryFuel (n : Nat) : Nat → List β → List (List β)
  | _, [] => []
  | fuel + 1, l => l.take n :: splitEveryFuel n fuel (l.drop n)
  | 0, l => [l]

/-- Ramda's `splitEvery n l`: split `l` into consecutive chunks of `n`
elements, the last chunk possibly shorter. -/
def splitEvery (n : Nat) (l : List β) : List (List β) :=
  splitEveryFuel n l.length l

theorem splitEveryFuel_nil (n fuel : Nat) :
    splitEveryFuel n fuel ([] : List β) = [] := by
  cases fuel <;> rfl

theorem splitEveryFuel_congr (n : Nat) (hn : 0 < n) :
    ∀ fuel₁ fuel₂ (l : List β), l.length ≤ fuel₁ → l.length ≤ fuel₂ →
      splitEveryFuel n fuel₁ l = splitEveryFuel n fuel₂ l := by
  intro fuel₁
  induction fuel₁ with
  | zero =>
    intro fuel₂ l h1 _
    have : l = [] := List.eq_nil_of_length_eq_zero (Nat.le_zero.mp h1)
    subst this
    simp [splitEveryFuel_nil]
  | succ f ih =>
    intro fuel₂ l h1 h2
    cases l with
    | nil => simp [splitEveryFuel_nil]
    | cons x xs =>
      cases fuel₂ with
      | zero => simp at h2
      | succ g =>
        show (x :: xs).take n :: splitEveryFuel n f ((x :: xs).drop n) =
          (x :: xs).take n :: splitEveryFuel n g ((x :: xs).drop n)
        have hd : ((x :: xs).drop n).length = (x :: xs).length - n := by
          simp
        have hlen : (x :: xs).length - n ≤ f := by
          simp only [List.length_cons] at h1 ⊢
          omega
        have hlen' : (x :: xs).length - n ≤ g := by
          simp only [List.length_cons] at h2 ⊢
          omega
        rw [ih g ((x :: xs).drop n) (hd ▸ hlen) (hd ▸ hlen')]

theorem splitEvery_nil (n : Nat) : splitEvery n ([] : List β) = [] := rfl

theorem splitEvery_cons_eq (n : Nat) (hn : 0 < n) (l : List β) (hl : l ≠ []) :
    splitEvery n l = l.take n :: splitEvery n (l.drop n) := by
  cases l with
  | nil => exact absurd rfl hl
  | cons x xs =>
    show (x :: xs).take n :: splitEveryFuel n xs.length ((x :: xs).drop n) =
      (x :: xs).take n :: splitEvery n ((x :: xs).drop n)
    congr 1
    apply splitEveryFuel_congr n hn
    · simp; omega
    · exact Nat.le_refl _

theorem splitEveryFuel_flatten (n : Nat) :
    ∀ fuel (l : List β), (splitEveryFuel n fuel l).flatten = l := by
  intro fuel
  induction fuel with
  | zero =>
    intro l
    cases l <;> simp [splitEveryFuel]
  | succ f ih =>
    intro l
    cases l with
    | nil => simp [splitEveryFuel]
    | cons x xs =>
      show ((x :: xs).take n :: splitEveryFuel n f ((x :: xs).drop n)).flatten = x :: xs
      simp [ih]

/-- Concatenating the chunks restores the original list. -/
theorem splitEvery_flatten (n : Nat) (l : List β) :
    (splitEvery n l).flatten = l :=
  splitEveryFuel_flatten n l.length l

theorem splitEveryFuel_length_le (n : Nat) (hn : 0 < n) :
    ∀ fuel (l : List β), l.length ≤ fuel →
      ∀ b ∈ splitEveryFuel n fuel l, b.length ≤ n := by
  intro fuel
  induction fuel with
  | zero =>
    intro l h1 b hb
    have : l = [] := List.eq_nil_of_length_eq_zero (Nat.le_zero.mp h1)
    subst this
    simp [splitEveryFuel_nil] at hb
  | succ f ih =>
    intro l h1 b hb
    cases l with
    | nil => simp [splitEveryFuel_nil] at hb
    | cons x xs =>
      have hb' : b ∈ (x :: xs).take n :: splitEveryFuel n f ((x :: xs).drop n) := hb
      rcases List.mem_cons.mp hb' with h | h
      · subst h
        simp [Nat.min_le_left]
      · apply ih ((x :: xs).drop n) _ b h
        simp only [List.length_drop, List.length_cons] at *
        omega

/-- No chunk exceeds the chunk size. -/
theorem splitEvery_length_le (n : Nat) (hn : 0 < n) (l : List β) :
    ∀ b ∈ splitEvery n l, b.length ≤ n :=
  splitEveryFuel_length_le n hn l.length l (Nat.le_refl _)

theorem splitEveryFuel_dropLast (n : Nat) (hn : 0 < n) :
    ∀ fuel (l : List β), l.length ≤ fuel →
      ∀ b ∈ (splitEveryFuel n fuel l).dropLast, b.length = n := by
  intro fuel
  induction fuel with
  | zero =>
    intro l h1 b hb
    have : l = [] := List.eq_nil_of_length_eq_zero (Nat.le_zero.mp h1)
    subst this
    simp [splitEveryFuel_nil] at hb
  | succ f ih =>
    intro l h1 b hb
    cases l with
    | nil => simp [splitEveryFuel_nil] at hb
    | cons x xs =>
      have hb' :
          b ∈ ((x :: xs).take n :: splitEveryFuel n f ((x :: xs).drop n)).dropLast := hb
      rcases hrest : splitEveryFuel n f ((x :: xs).drop n) with _ | ⟨c, cs⟩
      · rw [hrest] at hb'
        simp at hb'
      · rw [hrest] at hb'
        have hdl :
            ((x :: xs).take n :: c :: cs).dropLast =
              (x :: xs).take n :: (c :: cs).dropLast := by
          simp [List.dropLast_cons_of_ne_nil]
        rw [hdl] at hb'
        have hdrop_ne : (x :: xs).drop n ≠ [] := by
          intro hc
          rw [hc, splitEveryFuel_nil] at hrest
          exact List.cons_ne_nil _ _ hrest.symm
        have hlen_gt : n < (x :: xs).length := by
          by_contra hle
          exact hdrop_ne (List.drop_of_length_le (Nat.le_of_not_lt hle))
        rcases List.mem_cons.mp hb' with h | h
        · subst h
          simp only [List.length_take]
          omega
        · have := ih ((x :: xs).drop n) ?_ b (hrest ▸ h)
          · exact this
          · simp only [List.length_drop, List.length_cons] at *
            omega

/-- Every chunk except possibly the last has exactly `n` elements. -/
theorem splitEvery_dropLast (n : Nat) (hn : 0 < n) (l : List β) :
    ∀ b ∈ (splitEvery n l).dropLast, b.length = n :=
  splitEveryFuel_dropLast n hn l.length l (Nat.le_refl _)

theorem splitEveryFuel25_length :
    ∀ fuel (l : List β), l.length ≤ fuel →
      (splitEveryFuel 25 fuel l).length = (l.length + 24) / 25 := by
  intro fuel
  induction fuel with
  | zero =>
    intro l h1
    have : l = [] := List.eq_nil_of_length_eq_zero (Nat.le_zero.mp h1)
    subst this
    simp [splitEveryFuel_nil]
  | succ f ih =>
    intro l h1
    cases l with
    | nil => simp [splitEveryFuel_nil]
    | cons x xs =>
      have hfuel : ((x :: xs).drop 25).length ≤ f := by
        simp only [List.length_drop, List.length_cons]
        simp only [List.length_cons] at h1
        omega
      have hrec := ih ((x :: xs).drop 25) hfuel
      show ((x :: xs).take 25 :: splitEveryFuel 25 f ((x :: xs).drop 25)).length =
        ((x :: xs).length + 24) / 25
      simp only [List.length_cons, List.length_drop] at hrec ⊢
      rw [hrec]
      omega

/-- The number of 25-chunks is `⌈L / 25⌉ = (L + 24) / 25`. -/
theorem splitEvery25_length (l : List β) :
    (splitEvery 25 l).length = (l.length + 24) / 25 :=
  splitEveryFuel25_length l.length l (Nat.le_refl _)

theorem splitEvery_eq_single (n : Nat) (hn : 0 < n) (l : List β)
    (hne : l ≠ []) (hle : l.length ≤ n) : splitEvery n l = [l] := by
  rw [splitEvery_cons_eq n hn l hne, List.take_of_length_le hle,
    List.drop_of_length_le hle, splitEvery_nil]

/-- A JavaScript error-like value as `convertErrorObject` sees it
(ddb.ts lines 411-439): possibly-absent `name`, `stack` and `message`
string fields, plus whatever other own-properties the object carries. -/
structure ErrVal where
  name : Option String
  stack : Option String
  message : Option String
  rest : List (String × String)
deriving DecidableEq, Repr

/-- JavaScript truthiness of an optional string field: present and
non-empty. -/
def truthy : Option String → Bool
  | some s => s != ""
  | none => false

/-- The `CustomError` type of ddb.ts lines 400-404. -/
structure CustomError where
  name : String
  stack : String
  message : String
deriving DecidableEq, Repr

/-- The response-side error shape, `Omit<CustomError, "stack">`. -/
structure CustomErrorResponse where
  name : String
  message : String
deriving DecidableEq, Repr

/-- The `logger` side of `ConvertErrorObject`: either the projected
`CustomError` or the original value passed through unchanged. -/
inductive LoggerError where
  | custom (e : CustomError)
  | raw (e : ErrVal)
deriving DecidableEq, Repr

/-- The `response` side of `ConvertErrorObject`. -/
inductive ResponseError where
  | custom (e : CustomErrorResponse)
  | raw (e : ErrVal)
deriving DecidableEq, Repr

/-- The result type of `convertErrorObject` (ddb.ts lines 406-409). -/
structure ConvertErrorObject where
  response : ResponseError
  logger : LoggerError
deriving DecidableEq, Repr

/-- JavaScript `o || d` on an optional string field: the field when
truthy, otherwise the default. -/
def jsOrElse (o : Option String) (d : String) : String :=
  match o with
  | some s => if s = "" then d else s
  | none => d

/-- The function `convertErrorObject` (ddb.ts lines 411-439).
Duck-types the value: with truthy `name`, `stack` and `message` it
projects the three fields (`stack || "No stack provided"` for the
stack, on the logger side) and drops `stack` on the response side;
otherwise both sides are the original value unchanged.
`CustomError.mk` takes name, stack, message in that order;
`ConvertErrorObject.mk` takes response then logger. -/
def convertErrorObject (errorObject : ErrVal) : ConvertErrorObject :=
  if truthy errorObject.name && truthy errorObject.stack &&
      truthy errorObject.message then
    ConvertErrorObject.mk
      (ResponseError.custom
        (CustomErrorResponse.mk (errorObject.name.getD "")
          (errorObject.message.getD "")))
      (LoggerError.custom
        (CustomError.mk (errorObject.name.getD "")
          (jsOrElse errorObject.stack "No stack provided")
          (errorObject.message.getD "")))
  else
    ConvertErrorObject.mk (ResponseError.raw errorObject)
      (LoggerError.raw errorObject)

/-- A `BatchWriteCommand` input, `{ RequestItems: { [tableName]: batch } }`
(ddb.ts lines 213-215). -/
structure BatchWriteCommandInput (α : Type) where
  tableName : String
  requestItems : List (WriteRequest α)
deriving DecidableEq, Repr

/-- The `console.log` records `batchWriteItem` can emit: the
per-batch success record (ddb.ts lines 218-224) and the catch-clause
failure record (ddb.ts lines 229-236). -/
inductive LogRecord (α ρ : Type) where
  | completeBatchWrite (batch_number : String) (command_response : ρ)
      (input : List (WriteRequest α))
  | failBatchWriteItem (action : String) (items : List α) (error : LoggerError)
deriving DecidableEq, Repr

/-- The success log of ddb.ts lines 218-224.  `batch_number` is
`i + "out of " + batchCount` — the source misses the space after `i`. -/
def completeBatchWriteLog (i batchCount : Nat) (res : ρ)
    (batch : List (WriteRequest α)) : LogRecord α ρ :=
  LogRecord.completeBatchWrite (toString i ++ "out of " ++ toString batchCount)
    res batch

/-- The failure log of ddb.ts lines 229-236: the action, the whole input
item list, and `convertErrorObject(e).logger`. -/
def failBatchWriteItemLog (action : String) (items : List α) (e : ErrVal) :
    LogRecord α ρ :=
  LogRecord.failBatchWriteItem action items (convertErrorObject e).logger

/-- Success logs of the dispatch loop, one per batch whose `send`
succeeds, in batch-index order (real completion order of the concurrent
requests is unspecified; no theorem below depends on the order). -/
def dispatchLogs (send : Nat → Except ErrVal ρ) (batchCount : Nat) :
    Nat → List (List (WriteRequest α)) → List (LogRecord α ρ)
  | _, [] => []
  | i, b :: rest =>
    match send i with
    | Except.ok res =>
        completeBatchWriteLog i batchCount res b ::
          dispatchLogs send batchCount (i + 1) rest
    | Except.error _ => dispatchLogs send batchCount (i + 1) rest

/-- The error `Promise.all` rejects with, determinized to the failing
batch of least index (all requests have been dispatched either way). -/
def firstBatchError (send : Nat → Except ErrVal ρ) :
    Nat → List (List (WriteRequest α)) → Option ErrVal
  | _, [] => none
  | i, _ :: rest =>
    match send i with
    | Except.ok _ => firstBatchError send (i + 1) rest
    | Except.error e => some e

/-- Everything observable about one run of `batchWriteItem`: the
commands sent over the network, the `console.log` records, and the
returned/thrown outcome. -/
structure BatchRunResult (α ρ : Type) where
  requests : List (BatchWriteCommandInput α)
  logs : List (LogRecord α ρ)
  outcome : Except ErrVal Unit

/-- The batches `batchWriteItem` builds before dispatch
(ddb.ts lines 193-209): map the items to write requests, then
`splitEvery(25, ...)`. -/
def batchWriteBatches (action : String) (items : List α) :
    List (List (WriteRequest α)) :=
  splitEvery 25 (processItems action items)

/-- One run of `batchWriteItem(tableName, action, items)`
(ddb.ts lines 187-239) against the network oracle `send`.  Every batch
is sent exactly once (`requests`); each successful batch logs its
success record; if any batch fails, the catch clause logs the failure
record and the call rejects with the error. -/
def batchWriteItemRun (send : Nat → Except ErrVal ρ) (tableName action : String)
    (items : List α) : BatchRunResult α ρ :=
  let processedItemBatches := batchWriteBatches action items
  let batchCount := processedItemBatches.length
  let requests := processedItemBatches.map
    (fun batch => BatchWriteCommandInput.mk tableName batch)
  let logs := dispatchLogs send batchCount 0 processedItemBatches
  match firstBatchError send 0 processedItemBatches with
  | none => BatchRunResult.mk requests logs (Except.ok ())
  | some e =>
      BatchRunResult.mk requests (logs ++ [failBatchWriteItemLog action items e])
        (Except.error e)

/-!
Injectivity of the decimal rendering `toString : Nat → String`, needed
to tell two batches' `batch_number` strings apart.  Core's `Nat.repr`
goes through the fuel-based `Nat.toDigitsCore`; we relate it to a
direct recursion and invert that by evaluating the digits back.
-/

/-- The decimal digit list of `n`, most significant first: what
`Nat.toDigits 10` computes (see `toDigits_eq_decimalDigits`). -/
def decimalDigits (n : Nat) : List Char :=
  if _h : n < 10 then [Nat.digitChar n]
  else decimalDigits (n / 10) ++ [Nat.digitChar (n % 10)]
decreasing_by exact Nat.div_lt_self (by omega) (by omega)

/-- Numeric value of a decimal digit character. -/
def charDigitVal (c : Char) : Nat := c.toNat - 48

/-- Evaluate a digit list back to the number it denotes. -/
def ofDecimalDigits (l : List Char) : Nat :=
  l.foldl (fun acc c => acc * 10 + charDigitVal c) 0

theorem charDigitVal_digitChar (d : Nat) (h : d < 10) :
    charDigitVal (Nat.digitChar d) = d := by
  interval_cases d <;> rfl

theorem foldl_digits_append (l : List Char) (c : Char) (a : Nat) :
    List.foldl (fun acc c => acc * 10 + charDigitVal c) a (l ++ [c]) =
      (List.foldl (fun acc c => acc * 10 + charDigitVal c) a l) * 10 +
        charDigitVal c := by
  rw [List.foldl_append]
  rfl

theorem ofDecimalDigits_decimalDigits (n : Nat) :
    ofDecimalDigits (decimalDigits n) = n := by
  induction n using Nat.strong_induction_on with
  | _ n ih =>
    rw [decimalDigits]
    split
    · rename_i h
      show 0 * 10 + charDigitVal (Nat.digitChar n) = n
      rw [charDigitVal_digitChar n h]
      omega
    · rename_i h
      have hn : 10 ≤ n := Nat.le_of_not_lt h
      unfold ofDecimalDigits
      rw [foldl_digits_append]
      have hdiv : n / 10 < n := Nat.div_lt_self (by omega) (by omega)
      have := ih (n / 10) hdiv
      unfold ofDecimalDigits at this
      rw [this, charDigitVal_digitChar (n % 10) (Nat.mod_lt n (by omega))]
      omega

theorem decimalDigits_injective : Function.Injective decimalDigits := by
  intro m n h
  have := congrArg ofDecimalDigits h
  rwa [ofDecimalDigits_decimalDigits, ofDecimalDigits_decimalDigits] at this

theorem toDigitsCore_eq_decimalDigits :
    ∀ fuel n ds, n < fuel →
      Nat.toDigitsCore 10 fuel n ds = decimalDigits n ++ ds := by
  intro fuel
  induction fuel with
  | zero => intro n ds h; omega
  | succ f ih =>
    intro n ds h
    show (if n / 10 = 0 then Nat.digitChar (n % 10) :: ds
      else Nat.toDigitsCore 10 f (n / 10) (Nat.digitChar (n % 10) :: ds)) =
        decimalDigits n ++ ds
    by_cases h10 : n / 10 = 0
    · have hlt : n < 10 := (Nat.div_eq_zero_iff (by omega)).mp h10
      rw [if_pos h10, decimalDigits]
      simp [hlt, Nat.mod_eq_of_lt hlt]
    · have hge : 10 ≤ n := by
        by_contra hc
        exact h10 (Nat.div_eq_of_lt (Nat.lt_of_not_le hc))
      have hdivlt : n / 10 < f := by
        have h1 : n / 10 < n := Nat.div_lt_self (by omega) (by omega)
        omega
      rw [if_neg h10, ih (n / 10) (Nat.digitChar (n % 10) :: ds) hdivlt]
      conv_rhs => rw [decimalDigits]
      have : ¬ n < 10 := by omega
      simp [this]

theorem toDigits_eq_decimalDigits (n : Nat) :
    Nat.toDigits 10 n = decimalDigits n := by
  show Nat.toDigitsCore 10 (n + 1) n [] = decimalDigits n
  rw [toDigitsCore_eq_decimalDigits (n + 1) n [] (Nat.lt_succ_self n),
    List.append_nil]

theorem natToString_injective : Function.Injective (fun n : Nat => toString n) := by
  intro m n h
  have hrep : Nat.repr m = Nat.repr n := h
  unfold Nat.repr at hrep
  rw [toDigits_eq_decimalDigits, toDigits_eq_decimalDigits] at hrep
  exact decimalDigits_injective (List.asString_inj.mp hrep)

/-- Two batches' `batch_number` strings (same total count) agree only at
the same index. -/
theorem batchNumberString_inj (i j c : Nat)
    (h : toString i ++ "out of " ++ toString c =
      toString j ++ "out of " ++ toString c) : i = j := by
  apply natToString_injective
  have hd := congrArg String.data h
  simp only [String.data_append, List.append_assoc] at hd
  have := List.append_cancel_right hd
  exact String.ext this

theorem completeBatchWriteLog_inj_index (i j bc : Nat) (res res' : ρ)
    (b b' : List (WriteRequest α))
    (h : completeBatchWriteLog i bc res b = completeBatchWriteLog j bc res' b') :
    i = j := by
  unfold completeBatchWriteLog at h
  injection h with h1 _ _
  exact batchNumberString_inj i j bc h1

theorem processItems_put (items : List α) :
    processItems "put" items = items.map WriteRequest.putRequest := by
  simp [processItems]

theorem processItems_not_put (action : String) (h : action ≠ "put")
    (items : List α) :
    processItems action items = items.map WriteRequest.deleteRequest := by
  simp [processItems, h]

theorem length_processItems (action : String) (items : List α) :
    (processItems action items).length = items.length := by
  unfold processItems
  split <;> simp

theorem firstBatchError_eq_none_iff (send : Nat → Except ErrVal ρ) :
    ∀ (bs : List (List (WriteRequest α))) (k : Nat),
      firstBatchError send k bs = none ↔
        ∀ m, m < bs.length → (send (k + m)).isOk = true := by
  intro bs
  induction bs with
  | nil =>
    intro k
    simp [firstBatchError]
  | cons b rest ih =>
    intro k
    cases hsk : send k with
    | ok res =>
      simp only [firstBatchError, hsk]
      rw [ih (k + 1)]
      constructor
      · intro hall m hm
        cases m with
        | zero =>
          rw [Nat.add_zero, hsk]
          rfl
        | succ m' =>
          have hm' : m' < rest.length := by
            simp only [List.length_cons] at hm
            omega
          have := hall m' hm'
          rw [show k + (m' + 1) = k + 1 + m' by omega]
          exact this
      · intro hall m hm
        have hm' : m + 1 < (b :: rest).length := by
          simp only [List.length_cons]
          omega
        have := hall (m + 1) hm'
        rw [show k + 1 + m = k + (m + 1) by omega]
        exact this
    | error e =>
      simp only [firstBatchError, hsk]
      constructor
      · intro hc
        exact absurd hc (by simp)
      · intro hall
        have := hall 0 (by simp)
        rw [Nat.add_zero, hsk] at this
        simp [Except.isOk, Except.toBool] at this

theorem firstBatchError_isSome_of_error (send : Nat → Except ErrVal ρ)
    (bs : List (List (WriteRequest α))) (k i0 : Nat) (e : ErrVal)
    (hk : k ≤ i0) (hlen : i0 - k < bs.length)
    (he : send i0 = Except.error e) :
    (firstBatchError send k bs).isSome = true := by
  cases hfb : firstBatchError send k bs with
  | some e' => rfl
  | none =>
    have := (firstBatchError_eq_none_iff send bs k).mp hfb (i0 - k) hlen
    rw [show k + (i0 - k) = i0 by omega, he] at this
    simp [Except.isOk, Except.toBool] at this

theorem batchWriteItemRun_requests (send : Nat → Except ErrVal ρ)
    (tableName action : String) (items : List α) :
    (batchWriteItemRun send tableName action items).requests =
      (batchWriteBatches action items).map
        (fun batch => BatchWriteCommandInput.mk tableName batch) := by
  cases h : firstBatchError send 0 (batchWriteBatches action items) <;>
    simp [batchWriteItemRun, h]

theorem batchWriteItemRun_logs (send : Nat → Except ErrVal ρ)
    (tableName action : String) (items : List α) :
    (batchWriteItemRun send tableName action items).logs =
      dispatchLogs send (batchWriteBatches action items).length 0
        (batchWriteBatches action items) ++
        (match firstBatchError send 0 (batchWriteBatches action items) with
          | none => []
          | some e => [failBatchWriteItemLog action items e]) := by
  cases h : firstBatchError send 0 (batchWriteBatches action items) <;>
    simp [batchWriteItemRun, h]

theorem batchWriteItemRun_outcome (send : Nat → Except ErrVal ρ)
    (tableName action : String) (items : List α) :
    (batchWriteItemRun send tableName action items).outcome =
      (match firstBatchError send 0 (batchWriteBatches action items) with
        | none => Except.ok ()
        | some e => Except.error e) := by
  cases h : firstBatchError send 0 (batchWriteBatches action items) <;>
    simp [batchWriteItemRun, h]

theorem dispatchLogs_countP_zero [DecidableEq α] [DecidableEq ρ]
    (send : Nat → Except ErrVal ρ) (bc i0 : Nat)
    (res0 : ρ) (b0 : List (WriteRequest α)) :
    ∀ (bs : List (List (WriteRequest α))) (k : Nat), i0 < k →
      (dispatchLogs send bc k bs).countP
        (fun r => decide (r = completeBatchWriteLog i0 bc res0 b0)) = 0 := by
  intro bs
  induction bs with
  | nil =>
    intro k _
    simp [dispatchLogs]
  | cons b rest ih =>
    intro k hk
    cases hsk : send k with
    | ok res =>
      simp only [dispatchLogs, hsk]
      rw [List.countP_cons]
      have hne : ¬ (completeBatchWriteLog k bc res b =
          completeBatchWriteLog i0 bc res0 b0) := by
        intro hEq
        have := completeBatchWriteLog_inj_index k i0 bc res res0 b b0 hEq
        omega
      rw [ih (k + 1) (by omega)]
      simp [hne]
    | error e =>
      simp only [dispatchLogs, hsk]
      exact ih (k + 1) (by omega)

theorem dispatchLogs_countP_one [DecidableEq α] [DecidableEq ρ]
    (send : Nat → Except ErrVal ρ) (bc i0 : Nat)
    (res0 : ρ) (b0 : List (WriteRequest α)) :
    ∀ (bs : List (List (WriteRequest α))) (k : Nat), k ≤ i0 →
      bs[i0 - k]? = some b0 →
      send i0 = Except.ok res0 →
      (dispatchLogs send bc k bs).countP
        (fun r => decide (r = completeBatchWriteLog i0 bc res0 b0)) = 1 := by
  intro bs
  induction bs with
  | nil =>
    intro k _ hget _
    simp at hget
  | cons b rest ih =>
    intro k hk hget hok
    by_cases hik : k = i0
    · have h0 : i0 - k = 0 := by omega
      rw [h0] at hget
      simp only [List.getElem?_cons_zero, Option.some.injEq] at hget
      subst hget
      have hsk : send k = Except.ok res0 := by rw [hik]; exact hok
      simp only [dispatchLogs, hsk]
      rw [List.countP_cons]
      rw [dispatchLogs_countP_zero send bc i0 res0 b rest (k + 1) (by omega)]
      have heq : completeBatchWriteLog k bc res0 b =
          completeBatchWriteLog i0 bc res0 b := by rw [hik]
      simp [heq]
    · have hklt : k < i0 := by omega
      have hidx : i0 - k = (i0 - (k + 1)) + 1 := by omega
      rw [hidx] at hget
      simp only [List.getElem?_cons_succ] at hget
      have hrec := ih (k + 1) (by omega) hget hok
      cases hsk : send k with
      | ok res =>
        simp only [dispatchLogs, hsk]
        rw [List.countP_cons]
        have hne : ¬ (completeBatchWriteLog k bc res b =
            completeBatchWriteLog i0 bc res0 b0) := by
          intro hEq
          have := completeBatchWriteLog_inj_index k i0 bc res res0 b b0 hEq
          omega
        rw [hrec]
        simp [hne]
      | error e =>
        simp only [dispatchLogs, hsk]
        exact hrec


/-!
The claims.
-/

/-- C1: `batchWriteItem` partitions the mapped write operations into
exactly `⌈L/25⌉ = (L + 24) / 25` contiguous batches; no batch exceeds
25 operations; every batch except possibly the last has exactly 25;
the total operation count across the batches is `L`; and concatenating
the batches in order reproduces the mapped input sequence in its
original order. -/
theorem batchWriteItem_partition (action : String) (items : List α) :
    (batchWriteBatches action items).length = (items.length + 24) / 25 ∧
    (∀ b ∈ batchWriteBatches action items, b.length ≤ 25) ∧
    (∀ b ∈ (batchWriteBatches action items).dropLast, b.length = 25) ∧
    (batchWriteBatches action items).flatten = processItems action items ∧
    ((batchWriteBatches action items).map List.length).sum = items.length := by
  refine ⟨?_, ?_, ?_, ?_, ?_⟩
  · rw [batchWriteBatches, splitEvery25_length, length_processItems]
  · exact splitEvery_length_le 25 (by omega) _
  · exact splitEvery_dropLast 25 (by omega) _
  · exact splitEvery_flatten 25 _
  · have hfl := splitEvery_flatten 25 (processItems action items)
    have hlen := congrArg List.length hfl
    rw [List.length_flatten, length_processItems] at hlen
    exact hlen

/-- Witness for C1 at a concrete input: with 26 items the non-final
batch has exactly 25 operations, and flattening restores the mapped
input. -/
theorem batchWriteItem_partition_witness :
    (batchWriteBatches "put" (List.range 26)).flatten =
      processItems "put" (List.range 26) ∧
    ((processItems "put" (List.range 26)).take 25).length = 25 :=
  ⟨(batchWriteItem_partition "put" (List.range 26)).2.2.2.1,
    (batchWriteItem_partition "put" (List.range 26)).2.2.1
      ((processItems "put" (List.range 26)).take 25) (by decide)⟩

/-- C3: with action `"delete"` every produced operation is a
`DeleteRequest` wrapping an input item as `Key` (never the `PutRequest`
full-record shape), and with `"put"` every produced operation is a
`PutRequest` wrapping the item as `Item` — across all dispatched
batches. -/
theorem batchWriteItem_action_shape (items : List α) :
    (∀ b ∈ batchWriteBatches "delete" items, ∀ w ∈ b,
      ∃ k ∈ items, w = WriteRequest.deleteRequest k) ∧
    (∀ b ∈ batchWriteBatches "put" items, ∀ w ∈ b,
      ∃ x ∈ items, w = WriteRequest.putRequest x) := by
  constructor
  · intro b hb w hw
    have hwf : w ∈ (batchWriteBatches "delete" items).flatten :=
      List.mem_flatten.mpr ⟨b, hb, hw⟩
    rw [batchWriteBatches, splitEvery_flatten,
      processItems_not_put "delete" (by decide) items] at hwf
    obtain ⟨k, hk, hkw⟩ := List.mem_map.mp hwf
    exact ⟨k, hk, hkw.symm⟩
  · intro b hb w hw
    have hwf : w ∈ (batchWriteBatches "put" items).flatten :=
      List.mem_flatten.mpr ⟨b, hb, hw⟩
    rw [batchWriteBatches, splitEvery_flatten, processItems_put items] at hwf
    obtain ⟨x, hx, hxw⟩ := List.mem_map.mp hwf
    exact ⟨x, hx, hxw.symm⟩

/-- Witness for C3 at a concrete input. -/
theorem batchWriteItem_action_shape_witness :
    ∃ k ∈ [(7 : Nat)], WriteRequest.deleteRequest 7 = WriteRequest.deleteRequest k :=
  (batchWriteItem_action_shape [(7 : Nat)]).1
    [WriteRequest.deleteRequest 7] (by decide)
    (WriteRequest.deleteRequest 7) (by decide)

/-- C4: with an empty item list, `batchWriteItem` sends no network
request, logs nothing, and completes successfully. -/
theorem batchWriteItem_empty (send : Nat → Except ErrVal ρ)
    (tableName action : String) :
    (batchWriteItemRun send tableName action ([] : List α)).requests = [] ∧
    (batchWriteItemRun send tableName action ([] : List α)).logs = [] ∧
    (batchWriteItemRun send tableName action ([] : List α)).outcome =
      Except.ok () := by
  have hb : batchWriteBatches action ([] : List α) = [] := by
    rw [batchWriteBatches]
    have hp : processItems action ([] : List α) = [] := by
      unfold processItems
      split <;> rfl
    rw [hp, splitEvery_nil]
  refine ⟨?_, ?_, ?_⟩
  · rw [batchWriteItemRun_requests, hb]
    rfl
  · rw [batchWriteItemRun_logs, hb]
    rfl
  · rw [batchWriteItemRun_outcome, hb]
    rfl

/-- C5: at the batch-size boundary, 25 items yield exactly one batch
holding all 25 mapped operations, and 26 items yield exactly two
batches of sizes 25 and 1, in that order. -/
theorem batchWriteItem_boundary (action : String) (items : List α) :
    (items.length = 25 →
      batchWriteBatches action items = [processItems action items]) ∧
    (items.length = 26 →
      (batchWriteBatches action items).map List.length = [25, 1]) := by
  constructor
  · intro h25
    rw [batchWriteBatches]
    have hlen : (processItems action items).length = 25 := by
      rw [length_processItems]
      exact h25
    apply splitEvery_eq_single 25 (by omega)
    · intro hc
      rw [hc] at hlen
      simp at hlen
    · omega
  · intro h26
    have hlen : (processItems action items).length = 26 := by
      rw [length_processItems]
      exact h26
    have hne : processItems action items ≠ [] := by
      intro hc
      rw [hc] at hlen
      simp at hlen
    rw [batchWriteBatches, splitEvery_cons_eq 25 (by omega) _ hne]
    have hdlen : ((processItems action items).drop 25).length = 1 := by
      rw [List.length_drop, hlen]
    have hdne : (processItems action items).drop 25 ≠ [] := by
      intro hc
      rw [hc] at hdlen
      simp at hdlen
    rw [splitEvery_eq_single 25 (by omega) _ hdne (by omega)]
    simp only [List.map_cons, List.map_nil, List.length_take, hlen, hdlen]
    norm_num

/-- Witness for C5 at the two boundary inputs. -/
theorem batchWriteItem_boundary_witness :
    batchWriteBatches "put" (List.range 25) =
      [processItems "put" (List.range 25)] ∧
    (batchWriteBatches "delete" (List.range 26)).map List.length = [25, 1] :=
  ⟨(batchWriteItem_boundary "put" (List.range 25)).1 (by decide),
    (batchWriteItem_boundary "delete" (List.range 26)).2 (by decide)⟩

/-- C2: every batch is dispatched exactly once whatever the outcomes
(all requests go out, none is retried), and when exactly one batch's
call rejects while every other batch succeeds, the whole call rejects
with an error instead of returning success. -/
theorem batchWriteItem_failure_surfaces (send : Nat → Except ErrVal ρ)
    (tableName action : String) (items : List α) (i : Nat) (e : ErrVal)
    (hi : i < (batchWriteBatches action items).length)
    (he : send i = Except.error e)
    (_hothers : ∀ j, j < (batchWriteBatches action items).length → j ≠ i →
      (send j).isOk = true) :
    (batchWriteItemRun send tableName action items).outcome.isOk = false ∧
    (batchWriteItemRun send tableName action items).requests =
      (batchWriteBatches action items).map
        (fun batch => BatchWriteCommandInput.mk tableName batch) := by
  have hsome := firstBatchError_isSome_of_error send
    (batchWriteBatches action items) 0 i e (Nat.zero_le i) (by simpa using hi) he
  constructor
  · rw [batchWriteItemRun_outcome]
    cases hfb : firstBatchError send 0 (batchWriteBatches action items) with
    | none =>
      rw [hfb] at hsome
      simp at hsome
    | some e' => rfl
  · exact batchWriteItemRun_requests send tableName action items

/-- Witness for C2: 26 items (two batches), the second batch's call
rejects, the first succeeds; the run does not return success and both
commands went out. -/
theorem batchWriteItem_failure_surfaces_witness :
    (batchWriteItemRun
      (fun i => if i = 1
        then Except.error (ErrVal.mk (some "Error") (some "st") (some "boom") [])
        else Except.ok (0 : Nat))
      "tbl" "put" (List.range 26)).outcome.isOk = false ∧
    (batchWriteItemRun
      (fun i => if i = 1
        then Except.error (ErrVal.mk (some "Error") (some "st") (some "boom") [])
        else Except.ok (0 : Nat))
      "tbl" "put" (List.range 26)).requests =
      (batchWriteBatches "put" (List.range 26)).map
        (fun batch => BatchWriteCommandInput.mk "tbl" batch) :=
  batchWriteItem_failure_surfaces
    (fun i => if i = 1
      then Except.error (ErrVal.mk (some "Error") (some "st") (some "boom") [])
      else Except.ok (0 : Nat))
    "tbl" "put" (List.range 26) 1
    (ErrVal.mk (some "Error") (some "st") (some "boom") [])
    (by decide) rfl (by decide)

/-- C6: for every batch whose dispatch succeeds, exactly one success
diagnostic record is emitted for it, carrying the batch index and the
total batch count (encoded in `batch_number`), the raw response, and
the batch's payload. -/
theorem batchWriteItem_one_log_per_batch [DecidableEq α] [DecidableEq ρ]
    (send : Nat → Except ErrVal ρ) (tableName action : String)
    (items : List α) (i : Nat) (res : ρ) (b : List (WriteRequest α))
    (hb : (batchWriteBatches action items)[i]? = some b)
    (hok : send i = Except.ok res) :
    ((batchWriteItemRun send tableName action items).logs).countP
      (fun r => decide (r = completeBatchWriteLog i
        (batchWriteBatches action items).length res b)) = 1 := by
  rw [batchWriteItemRun_logs, List.countP_append]
  have h1 := dispatchLogs_countP_one send (batchWriteBatches action items).length
    i res b (batchWriteBatches action items) 0 (Nat.zero_le i)
    (by simpa using hb) hok
  rw [h1]
  cases hfb : firstBatchError send 0 (batchWriteBatches action items) with
  | none => rfl
  | some e =>
    simp [failBatchWriteItemLog, completeBatchWriteLog]

/-- Witness for C6: all 2 batches of a 26-item run succeed and the first
batch's success record appears exactly once. -/
theorem batchWriteItem_one_log_per_batch_witness :
    ((batchWriteItemRun (fun _ => Except.ok (0 : Nat)) "tbl" "put"
        (List.range 26)).logs).countP
      (fun r => decide (r = completeBatchWriteLog 0
        (batchWriteBatches "put" (List.range 26)).length 0
        ((processItems "put" (List.range 26)).take 25))) = 1 :=
  batchWriteItem_one_log_per_batch (fun _ => Except.ok (0 : Nat)) "tbl" "put"
    (List.range 26) 0 0 ((processItems "put" (List.range 26)).take 25)
    (by decide) rfl

/-- Whether a log record is the catch-clause failure record. -/
def isFailLog : LogRecord α ρ → Bool
  | LogRecord.failBatchWriteItem _ _ _ => true
  | LogRecord.completeBatchWrite _ _ _ => false

/-- A network oracle over two batches failing exactly at batch 0. -/
def sendFail0 : Nat → Except ErrVal Nat :=
  fun i => if i = 0
    then Except.error (ErrVal.mk (some "Error") (some "st") (some "boom") [])
    else Except.ok 0

/-- A network oracle over two batches failing exactly at batch 1, with
the same error value as `sendFail0`. -/
def sendFail1 : Nat → Except ErrVal Nat :=
  fun i => if i = 1
    then Except.error (ErrVal.mk (some "Error") (some "st") (some "boom") [])
    else Except.ok 0

/-- C7 counterexample: two 26-item runs in which *different* batches
fail (batch 0 under `sendFail0`, batch 1 under `sendFail1`) emit
*identical* failure diagnostics, so the failure record contains neither
the failing group's index/count nor an isolation of its payload —
it cannot correlate the error to the failing group. -/
theorem batchWriteItem_fail_log_not_correlating :
    (sendFail0 0).isOk = false ∧ (sendFail1 0).isOk = true ∧
    (sendFail1 1).isOk = false ∧
    (batchWriteItemRun sendFail0 "tbl" "put" (List.range 26)).logs.filter
        isFailLog =
      (batchWriteItemRun sendFail1 "tbl" "put" (List.range 26)).logs.filter
        isFailLog := by
  refine ⟨rfl, rfl, rfl, ?_⟩
  decide

/-- C7 amended: whenever a batch's dispatch fails, a failure diagnostic
is emitted (as the final log record, before the error is re-raised)
containing the action, the *entire* input item list, and the formatted
error object — but not the failing group's index, the group count, or
that particular group's payload. -/
theorem batchWriteItem_fail_log (send : Nat → Except ErrVal ρ)
    (tableName action : String) (items : List α) (i : Nat) (e : ErrVal)
    (hi : i < (batchWriteBatches action items).length)
    (he : send i = Except.error e) :
    ∃ e', (batchWriteItemRun send tableName action items).outcome =
        Except.error e' ∧
      (batchWriteItemRun send tableName action items).logs.getLast? =
        some (LogRecord.failBatchWriteItem action items
          (convertErrorObject e').logger) := by
  have hsome := firstBatchError_isSome_of_error send
    (batchWriteBatches action items) 0 i e (Nat.zero_le i) (by simpa using hi) he
  cases hfb : firstBatchError send 0 (batchWriteBatches action items) with
  | none =>
    rw [hfb] at hsome
    simp at hsome
  | some e' =>
    refine ⟨e', ?_, ?_⟩
    · rw [batchWriteItemRun_outcome, hfb]
    · rw [batchWriteItemRun_logs, hfb]
      rw [List.getLast?_concat]
      rfl

/-- Witness for the amended C7 at a concrete failing run. -/
theorem batchWriteItem_fail_log_witness :
    ∃ e', (batchWriteItemRun sendFail0 "tbl" "put" (List.range 26)).outcome =
        Except.error e' ∧
      (batchWriteItemRun sendFail0 "tbl" "put" (List.range 26)).logs.getLast? =
        some (LogRecord.failBatchWriteItem "put" (List.range 26)
          (convertErrorObject e').logger) :=
  batchWriteItem_fail_log sendFail0 "tbl" "put" (List.range 26) 0
    (ErrVal.mk (some "Error") (some "st") (some "boom") []) (by decide) rfl

/-- C8: when the value has truthy `name`, `stack` and `message` fields,
`convertErrorObject` returns exactly the `{name, message, stack}`
projection on the logger side and the `{name, message}` projection
(stack omitted) on the response side; otherwise it returns the original
value unchanged on both sides. -/
theorem convertErrorObject_spec (e : ErrVal) :
    (truthy e.name = true → truthy e.stack = true → truthy e.message = true →
      convertErrorObject e =
        ConvertErrorObject.mk
          (ResponseError.custom
            (CustomErrorResponse.mk (e.name.getD "") (e.message.getD "")))
          (LoggerError.custom
            (CustomError.mk (e.name.getD "") (e.stack.getD "")
              (e.message.getD "")))) ∧
    (¬ (truthy e.name = true ∧ truthy e.stack = true ∧ truthy e.message = true) →
      convertErrorObject e =
        ConvertErrorObject.mk (ResponseError.raw e) (LoggerError.raw e)) := by
  constructor
  · intro h1 h2 h3
    unfold convertErrorObject
    rw [if_pos (by simp [h1, h2, h3])]
    have hst : jsOrElse e.stack "No stack provided" = e.stack.getD "" := by
      cases hs : e.stack with
      | none =>
        rw [hs] at h2
        simp [truthy] at h2
      | some s =>
        rw [hs] at h2
        have hne : s ≠ "" := by
          simpa [truthy] using h2
        simp [jsOrElse, hne]
    rw [hst]
  · intro h
    unfold convertErrorObject
    rw [if_neg]
    intro hc
    simp only [Bool.and_eq_true] at hc
    exact h ⟨hc.1.1, hc.1.2, hc.2⟩

/-- Witness for C8: a rich error is projected (stack dropped on the
response side), a value missing `name`/`stack` passes through unchanged
on both sides. -/
theorem convertErrorObject_spec_witness :
    convertErrorObject
        (ErrVal.mk (some "TypeError") (some "trace") (some "oops") []) =
      ConvertErrorObject.mk
        (ResponseError.custom (CustomErrorResponse.mk "TypeError" "oops"))
        (LoggerError.custom (CustomError.mk "TypeError" "trace" "oops")) ∧
    convertErrorObject (ErrVal.mk none none (some "x") [("code", "42")]) =
      ConvertErrorObject.mk
        (ResponseError.raw (ErrVal.mk none none (some "x") [("code", "42")]))
        (LoggerError.raw (ErrVal.mk none none (some "x") [("code", "42")])) :=
  ⟨(convertErrorObject_spec
      (ErrVal.mk (some "TypeError") (some "trace") (some "oops") [])).1
      (by decide) (by decide) (by decide),
    (convertErrorObject_spec (ErrVal.mk none none (some "x") [("code", "42")])).2
      (by decide)⟩

/-- C9: `batchWriteItem` performs no validation of `action`: any action
string other than exactly `"put"` maps every item to the
`DeleteRequest`/`Key` shape, and no error arises from the unrecognized
action (with every batch call succeeding, the run still returns
success). -/
theorem batchWriteItem_unknown_action (action : String) (items : List α)
    (h : action ≠ "put") :
    processItems action items = items.map WriteRequest.deleteRequest ∧
    (∀ (send : Nat → Except ErrVal ρ) (tableName : String),
      (∀ i, i < (batchWriteBatches action items).length →
        (send i).isOk = true) →
      (batchWriteItemRun send tableName action items).outcome =
        Except.ok ()) := by
  constructor
  · exact processItems_not_put action h items
  · intro send tableName hall
    rw [batchWriteItemRun_outcome]
    have hnone : firstBatchError send 0 (batchWriteBatches action items) = none := by
      apply (firstBatchError_eq_none_iff send _ 0).mpr
      intro m hm
      simpa using hall m hm
    rw [hnone]

/-- Witness for C9 with action "remove": delete shapes are produced and
the run succeeds. -/
theorem batchWriteItem_unknown_action_witness :
    processItems "remove" ([3, 4] : List Nat) =
      [WriteRequest.deleteRequest 3, WriteRequest.deleteRequest 4] ∧
    (batchWriteItemRun (fun _ => Except.ok (0 : Nat)) "tbl" "remove"
      ([3, 4] : List Nat)).outcome = Except.ok () :=
  ⟨(@batchWriteItem_unknown_action Nat Nat "remove" [3, 4] (by decide)).1,
    (@batchWriteItem_unknown_action Nat Nat "remove" [3, 4] (by decide)).2
      (fun _ => Except.ok (0 : Nat)) "tbl" (by decide)⟩
